import Mathlib

/-!
Shallow embedding of the spreadsheet-ingestion and commission-resolution core of
the `installations-wellcome` repository (`src/lib/prisma.ts` parsing section and
the `resolveCommissions` helper of the server actions module).

JavaScript numbers are modelled as exact rationals (`ℚ`); strings as Lean
`String` operated on through their character lists.  The XLSX decoding layer is
abstracted: a workbook is the grid of cells that `sheet_to_json(..., {header:1})`
produces, a cell being a string, a number, or empty/undefined/null (blank cells
of a sheet are absent from the produced arrays and read as `undefined`, which
the parsing code coerces to the empty string).
-/

namespace Wellcome

/-- A spreadsheet cell as seen after `sheet_to_json`: a string, a number, or
empty (a hole / `undefined` / `null`). -/
inductive Cell where
  | str (s : String)
  | num (q : ℚ)
  | empty
  deriving DecidableEq, Repr

abbrev Row := List Cell

/-- The whitespace class used by JS `trim` and the `\s` regex class
(space, tab, LF, VT, FF, CR, NBSP; wider Unicode space classes are omitted
as they do not occur in the inputs modelled here). -/
def jsWhitespace (c : Char) : Bool :=
  c == ' ' || c == '\t' || c == '\n' || c == '\r' ||
  c.toNat == 11 || c.toNat == 12 || c.toNat == 160

/-- JS `String.prototype.trim` on a character list. -/
def jsTrimList (l : List Char) : List Char :=
  ((l.dropWhile jsWhitespace).reverse.dropWhile jsWhitespace).reverse

/-- JS `String.prototype.trim`. -/
def jsTrim (s : String) : String :=
  String.mk (jsTrimList s.data)

/-- `replace(/\s+/g, " ")`: each maximal whitespace run becomes one space. -/
def collapseWs : List Char → List Char
  | [] => []
  | [c] => [if jsWhitespace c then ' ' else c]
  | a :: b :: rest =>
    if jsWhitespace a && jsWhitespace b then collapseWs (b :: rest)
    else (if jsWhitespace a then ' ' else a) :: collapseWs (b :: rest)

/-- Effect of `normalize("NFD").replace(/[̀-ͯ]/g, "")` on the
Latin-1/Spanish letters that occur in the data: each precomposed accented
letter decomposes to its base letter plus a combining mark, which is then
stripped. Unaccented characters are untouched. -/
def stripDiacritic (c : Char) : Char :=
  match c with
  | 'á' | 'à' | 'â' | 'ä' | 'ã' => 'a'
  | 'é' | 'è' | 'ê' | 'ë' => 'e'
  | 'í' | 'ì' | 'î' | 'ï' => 'i'
  | 'ó' | 'ò' | 'ô' | 'ö' | 'õ' => 'o'
  | 'ú' | 'ù' | 'û' | 'ü' => 'u'
  | 'ñ' => 'n'
  | 'ç' => 'c'
  | 'Á' | 'À' | 'Â' | 'Ä' | 'Ã' => 'A'
  | 'É' | 'È' | 'Ê' | 'Ë' => 'E'
  | 'Í' | 'Ì' | 'Î' | 'Ï' => 'I'
  | 'Ó' | 'Ò' | 'Ô' | 'Ö' | 'Õ' => 'O'
  | 'Ú' | 'Ù' | 'Û' | 'Ü' => 'U'
  | 'Ñ' => 'N'
  | 'Ç' => 'C'
  | _ => c

/-- `normalizeKey` from `src/lib/prisma.ts`: strip diacritics, lowercase,
trim, collapse internal whitespace runs to a single space. -/
def normalizeKey (s : String) : String :=
  String.mk (collapseWs (jsTrimList (s.data.map (fun c => (stripDiacritic c).toLower))))

/-- JS `toUpperCase` restricted to the ASCII range (the only comparison made
with it is against the ASCII literal "PAGADO"/"GRATIS"). -/
def jsToUpper (s : String) : String :=
  String.mk (s.data.map Char.toUpper)

/-- Left-pad a digit string with zeros to width `k`. -/
def padLeftZeros (k : Nat) (s : String) : String :=
  if s.length < k then String.mk (List.replicate (k - s.length) '0') ++ s else s

/-- Fixed-notation decimal rendering of `n / d` (both natural, `d ≠ 0`) when the
expansion terminates within 30 fractional digits; trailing zeros do not occur
because `n / d` is in lowest terms.  The `num/den` fallback is unreachable for
rationals standing in for doubles, whose decimal expansions always terminate. -/
def ratToStringAux (n : Nat) (d : Nat) : String :=
  match (List.range 31).find? (fun k => 10 ^ k % d == 0) with
  | some k =>
    let scaled := n * 10 ^ k / d
    if k == 0 then toString scaled
    else toString (scaled / 10 ^ k) ++ "." ++ padLeftZeros k (toString (scaled % 10 ^ k))
  | none => toString n ++ "/" ++ toString d

/-- JS `String(x)` on a number: sign, then decimal expansion.  Exponential
notation for magnitudes outside `[1e-6, 1e21)` is not modelled (no such value
occurs in the claims). -/
def ratToString (q : ℚ) : String :=
  (if q < 0 then "-" else "") ++ ratToStringAux q.num.natAbs q.den

/-- The string coercion `String(cell || fallback)` used throughout the row
loop: a falsy cell (empty/undefined/null, the empty string, the number 0)
yields the fallback, any other cell is stringified. -/
def cellStrOr (fallback : String) : Cell → String
  | .empty => fallback
  | .str s => if s = "" then fallback else s
  | .num q => if q = 0 then fallback else ratToString q

def digitVal (c : Char) : Nat := c.toNat - '0'.toNat

def digitsToNat (ds : List Char) : Nat :=
  ds.foldl (fun acc c => 10 * acc + digitVal c) 0

/-- JS `parseFloat` on the cleaned amount characters: the longest numeric
suffix-free prefix has the shape `digits ["." digits]` (no sign, exponent or
`Infinity` survives the cleaning to digits, `.` and `,`); when that shape
holds no digit at all the result is NaN, returned as `none`. -/
def jsParseFloat (cs : List Char) : Option ℚ :=
  let ds1 := cs.takeWhile Char.isDigit
  let rest := cs.dropWhile Char.isDigit
  let ds2 :=
    match rest with
    | '.' :: r => r.takeWhile Char.isDigit
    | _ => []
  if ds1.isEmpty && ds2.isEmpty then none
  else some ((digitsToNat ds1 : ℚ) + (digitsToNat ds2 : ℚ) / 10 ^ ds2.length)

/-- JS `replace(",", ".")` without the global flag: only the first comma is
replaced. -/
def replaceFirstComma : List Char → List Char
  | [] => []
  | c :: rest => if c = ',' then '.' :: rest else c :: replaceFirstComma rest

/-- `parseAmount` from `src/lib/prisma.ts`: numbers pass through unchanged;
anything else is stringified (falsy → "0"), stripped to digits/`.`/`,`,
first comma turned into a dot, then `parseFloat(...) || 0`. -/
def parseAmount (montoValue : Cell) : ℚ :=
  match montoValue with
  | .num q => q
  | v =>
    let str := cellStrOr "0" v
    let cleaned := replaceFirstComma (str.data.filter (fun c => c.isDigit || c == '.' || c == ','))
    match jsParseFloat cleaned with
    | some q => q
    | none => 0

inductive Currency where
  | USD
  | BCV
  deriving DecidableEq, Repr

/-- `detectCurrency` from `src/lib/prisma.ts`. -/
def detectCurrency (paymentMethod : String) : Currency :=
  let n := normalizeKey paymentMethod
  if n = "zelle" || n = "efectivo" then .USD
  else if n = "efectivo bs" || n = "pago movil" || n = "mixto" then .BCV
  else .USD

/-- `COLUMN_MAP` from `src/lib/prisma.ts`: normalized header text → canonical
field key. -/
def COLUMN_MAP : List (String × String) :=
  [("fecha", "fecha"),
   ("nombre", "nombre"),
   ("zona", "zona"),
   ("gratis", "gratis"),
   ("plan", "plan"),
   ("vendedor", "vendedor"),
   ("equipo", "equipo"),
   ("dinero recibido wellcomm", "dineroRecibido"),
   ("pagado comision vendedores", "pagadoComisionVendedores"),
   ("pagada comision instaladores", "pagadaComisionInstaladores"),
   ("medio de pago", "medioPago"),
   ("metodo de pago", "medioPago"),
   ("forma de pago", "medioPago"),
   ("tipo de pago", "medioPago"),
   ("pago", "medioPago"),
   ("monto suscripcion", "montoSuscripcion"),
   ("quien recibe", "quienRecibe"),
   ("referencia de registro", "referenciaRegistro"),
   ("revision gabriel johalis", "revisionGabriel")]

/-- `KNOWN_PAYMENT_VALUES` from `src/lib/prisma.ts`. -/
def KNOWN_PAYMENT_VALUES : List String :=
  ["zelle", "efectivo", "efectivo bs", "efectivo bolivares", "efectivo bolívares",
   "pago movil", "pago móvil", "mixto"]

/-- JS `Map.prototype.set` on the association-list model of a string-keyed
map: overwrite the value of an existing key, otherwise append a fresh
entry. -/
def mapSet (m : List (String × Nat)) (k : String) (v : Nat) : List (String × Nat) :=
  if k ∈ m.map Prod.fst then m.map (fun p => if p.1 = k then (k, v) else p)
  else m ++ [(k, v)]

/-- JS `Map.prototype.get` as `Option`: the value of the first (hence, keys
being unique, the only) entry with the given key. -/
def mapGet : List (String × Nat) → String → Option Nat
  | [], _ => none
  | (k1, v1) :: rest, k => if k = k1 then some v1 else mapGet rest k

/-- JS object-literal lookup `COLUMN_MAP[raw]` (undefined → `none`). -/
def tableGet : List (String × String) → String → Option String
  | [], _ => none
  | (k1, v1) :: rest, k => if k = k1 then some v1 else tableGet rest k

/-- The header loop of `normalizeHeaders`, with the `montoFound` flag that
makes the first `montoSuscripcion` match authoritative. -/
def normHeadersAux : List (Nat × String) → List (String × Nat) → Bool → List (String × Nat)
  | [], m, _ => m
  | (i, h) :: rest, m, montoFound =>
    match tableGet COLUMN_MAP (normalizeKey h) with
    | none => normHeadersAux rest m montoFound
    | some mapped =>
      if mapped = "montoSuscripcion" ∧ montoFound then normHeadersAux rest m montoFound
      else normHeadersAux rest (mapSet m mapped i)
        (montoFound || mapped == "montoSuscripcion")

/-- `normalizeHeaders` from `src/lib/prisma.ts`. -/
def normalizeHeaders (headers : List String) : List (String × Nat) :=
  normHeadersAux headers.enum [] false

-- ── Dates ──

/-- Calendar date (proleptic Gregorian): the date-only content of a JS
`Date`.  The model assumes a UTC environment, so local-time components and
the UTC components read back by `toISOString` coincide. -/
structure SDate where
  year : Int
  month : Nat
  day : Nat
  deriving DecidableEq, Repr

/-- Days since 1970-01-01 of the civil date `(y, m, 1)`, `m ∈ [1,12]`
(Hinnant's days-from-civil algorithm, day fixed to 1; callers add day
offsets directly to the result). -/
def daysFromCivilMonth1 (y : Int) (m : Nat) : Int :=
  let y := if m ≤ 2 then y - 1 else y
  let era := Int.fdiv y 400
  let yoe := (y - era * 400).toNat
  let doy := (153 * (if 2 < m then m - 3 else m + 9) + 2) / 5
  let doe := yoe * 365 + yoe / 4 - yoe / 100 + doy
  era * 146097 + (doe : Int) - 719468

/-- Civil date from days since 1970-01-01 (Hinnant's civil-from-days
algorithm). -/
def civilFromDays (z : Int) : SDate :=
  let z := z + 719468
  let era := Int.fdiv z 146097
  let doe := (z - era * 146097).toNat
  let yoe := (doe - doe / 1460 + doe / 36524 - doe / 146096) / 365
  let y := (yoe : Int) + era * 400
  let doy := doe - (365 * yoe + yoe / 4 - yoe / 100)
  let mp := (5 * doy + 2) / 153
  let d := doy - (153 * mp + 2) / 5 + 1
  let m := if mp < 10 then mp + 3 else mp - 9
  { year := if m ≤ 2 then y + 1 else y, month := m, day := d }

/-- `new Date(year, monthIndex, day)` reduced to its calendar date: two-digit
years map to 1900+y, and out-of-range month indices and days are normalized
by calendar arithmetic.  A JS `Date` only overflows to Invalid beyond
±100 000 000 days from the epoch, far outside anything reachable here, so
the result is total. -/
def jsMkDate (y mIdx d : Int) : SDate :=
  let y := if 0 ≤ y && y ≤ 99 then y + 1900 else y
  let ym := y * 12 + mIdx
  let y2 := Int.fdiv ym 12
  let m2 := (Int.emod ym 12).toNat + 1
  civilFromDays (daysFromCivilMonth1 y2 m2 + (d - 1))

/-- Modelled from the spec: `XLSX.SSF.parse_date_code`, the spreadsheet
serial-date decoder of the external `xlsx` library (not part of this
repository's sources; the spec describes it as an epoch-based day count with
the spreadsheet format's fractional-day convention).  Day 0 of the 1900 date
system is 1899-12-31 for codes below 60 and 1899-12-30 from 61 on (the
fictitious 1900-02-29 occupies code 60); out-of-range codes yield null, and
fractional days (time of day) are discarded since the caller keeps only
year/month/day. -/
def ssfParseDateCode (v : ℚ) : Option (Int × Int × Int) :=
  if v < 0 || (2958466 : ℚ) ≤ v then none
  else
    let n : Int := ⌊v⌋
    if n == 60 then some (1900, 2, 29)
    else if n < 60 then
      let d := civilFromDays (daysFromCivilMonth1 1899 12 + 30 + n)
      some (d.year, (d.month : Int), (d.day : Int))
    else
      let d := civilFromDays (daysFromCivilMonth1 1899 12 + 29 + n)
      some (d.year, (d.month : Int), (d.day : Int))

/-- JS `Number(str)` composed with the `ToInteger` truncation the `Date`
constructor applies to each argument, restricted to the decimal forms that
can arise in a date part: trimmed; empty → 0; optional sign, digits with at
most one dot, consumed entirely → the value truncated toward zero (that is,
the signed integer part); hex/binary/exponent literals are not modelled;
anything else is NaN (`none`), which makes the constructed date invalid. -/
def jsNumberToInt (s : String) : Option Int :=
  match jsTrimList s.data with
  | [] => some 0
  | cs =>
    let negBody : Bool × List Char :=
      match cs with
      | '-' :: r => (true, r)
      | '+' :: r => (false, r)
      | r => (false, r)
    let neg := negBody.1
    let body := negBody.2
    let ds1 := body.takeWhile Char.isDigit
    let rest := body.dropWhile Char.isDigit
    let intPart : Int := if neg then -(digitsToNat ds1 : Int) else (digitsToNat ds1 : Int)
    match rest with
    | [] => if ds1.isEmpty then none else some intPart
    | '.' :: r =>
      let ds2 := r.takeWhile Char.isDigit
      let rest2 := r.dropWhile Char.isDigit
      if rest2.isEmpty && !(ds1.isEmpty && ds2.isEmpty) then some intPart
      else none
    | _ => none

def isDateSep (c : Char) : Bool :=
  c == '/' || c == '-' || c == '.'

def splitDateSepsAux : List Char → List Char → List String
  | [], acc => [String.mk acc.reverse]
  | c :: rest, acc =>
    if isDateSep c then String.mk acc.reverse :: splitDateSepsAux rest []
    else splitDateSepsAux rest (c :: acc)

/-- JS `str.split(/[\/\-\.]/)`: split on every separator, keeping empty
pieces. -/
def splitDateSeps (s : String) : List String :=
  splitDateSepsAux s.data []

def isLeapYear (y : Int) : Bool :=
  (y % 4 == 0 && y % 100 != 0) || y % 400 == 0

def daysInMonth (y : Int) (m : Nat) : Nat :=
  if m == 2 then (if isLeapYear y then 29 else 28)
  else if m == 4 || m == 6 || m == 9 || m == 11 then 30
  else 31

/-- Modelled from the spec: the general date-string parse `new Date(str)`
performed by the JS engine, a host builtin not part of this repository's
sources (the spec calls it "a general date-string parse").  Two recognized
families cover the inputs considered: strict ISO `YYYY-MM-DD` (a UTC
calendar date, rejected when the month or day is out of range) and the
legacy US `M/D/YYYY`-style numeric form — up-to-2-digit month 1–12,
up-to-2-digit day 1–31 (normalized by calendar arithmetic when past the
month's end), 4-digit year.  Everything else — notably day-first strings
such as "15/03/2024" whose leading component exceeds 12 — is an Invalid
Date, `none`. -/
def jsDateFromString (s : String) : Option SDate :=
  match s.data with
  | [y1, y2, y3, y4, '-', m1, m2, '-', d1, d2] =>
    if [y1, y2, y3, y4, m1, m2, d1, d2].all Char.isDigit then
      let y : Int := (digitsToNat [y1, y2, y3, y4] : Nat)
      let m := digitsToNat [m1, m2]
      let d := digitsToNat [d1, d2]
      if 1 ≤ m && m ≤ 12 && 1 ≤ d && d ≤ daysInMonth y m then some ⟨y, m, d⟩ else none
    else none
  | _ =>
    match splitDateSeps s with
    | [ms, ds, ys] =>
      if ms.data ≠ [] && ms.data.length ≤ 2 && ms.data.all Char.isDigit &&
         ds.data ≠ [] && ds.data.length ≤ 2 && ds.data.all Char.isDigit &&
         ys.data.length == 4 && ys.data.all Char.isDigit then
        let m := digitsToNat ms.data
        let d := digitsToNat ds.data
        let y : Int := (digitsToNat ys.data : Nat)
        if 1 ≤ m && m ≤ 12 && 1 ≤ d && d ≤ 31 then some (jsMkDate y ((m : Int) - 1) d)
        else none
      else none
    | _ => none

/-- The string path of `parseDate`: general parse first, then the
split-on-`/`,`-`,`.` day-month-year fallback. -/
def parseDateStr (str : String) : Option SDate :=
  match jsDateFromString str with
  | some d => some d
  | none =>
    let parts := splitDateSeps str
    if parts.length == 3 then
      match parts.map jsNumberToInt with
      | [some d, some m, some y] => some (jsMkDate y (m - 1) d)
      | _ => none
    else none

/-- `parseDate` from `src/lib/prisma.ts`.  Only the calendar date of the JS
`Date` is retained (the model assumes a UTC environment, where `toISOString`
agrees with the local calendar fields). -/
def parseDate (value : Cell) : Option SDate :=
  match value with
  | .empty => none
  | .num v =>
    match ssfParseDateCode v with
    | some (y, m, d) => some (jsMkDate y (m - 1) d)
    | none => parseDateStr (jsTrim (ratToString v))
  | .str s => if s = "" then none else parseDateStr (jsTrim s)

/-- `date.toISOString().slice(0, 10)` in a UTC environment (the extended
`±YYYYYY` rendering of years outside [0, 9999] is not modelled; no such date
is reachable from real data). -/
def isoDate (d : SDate) : String :=
  (if d.year < 0 then "-" else "") ++ padLeftZeros 4 (toString d.year.natAbs) ++ "-" ++
    padLeftZeros 2 (toString d.month) ++ "-" ++ padLeftZeros 2 (toString d.day)

-- ── Ingestion pipeline ──

inductive InstallationType where
  | FREE
  | PAID
  deriving DecidableEq, Repr

structure ParsedSale where
  transactionDate : SDate
  customerName : String
  sellerName : String
  zone : String
  plan : String
  paymentMethod : String
  referenceCode : Option String
  installationType : InstallationType
  currency : Currency
  subscriptionAmount : ℚ
  deriving DecidableEq, Repr

structure DuplicateInfo where
  rowNumber : Nat
  customerName : String
  sellerName : String
  plan : String
  zone : String
  date : String
  deriving DecidableEq, Repr

structure ParseResult where
  sales : List ParsedSale
  totalRows : Nat
  validRows : Nat
  skippedRows : Nat
  duplicateRows : Nat
  duplicates : List DuplicateInfo
  detectedHeaders : List String
  mappedColumns : List (String × Nat)
  deriving DecidableEq, Repr

abbrev ColMap := List (String × Nat)

/-- JS `String(cell)` for header stringification.  A blank header cell is a
hole of the `sheet_to_json` array; read back as `undefined` it is coerced by
`headers[i] || ""` to a string matching no synonym, modelled as the empty
string. -/
def cellToString : Cell → String
  | .empty => ""
  | .str s => s
  | .num q => ratToString q

/-- Cell access through the column map (the `getCell` closure of
`parseExcelFile`): a missing mapping reads as `null`, an index past the
row's end as `undefined`; both are empty cells here. -/
def getCell (colMap : ColMap) (row : Row) (key : String) : Cell :=
  match mapGet colMap key with
  | none => .empty
  | some idx => row.getD idx .empty

/-- The unnamed-payment-column heuristic of `parseExcelFile`: if within the
first (up to) ten data rows the column right after `zona` holds a known
payment value, `medioPago` is remapped to that column. -/
def applyZonaOverride (colMap : ColMap) (dataRows : List Row) : ColMap :=
  match mapGet colMap "zona" with
  | none => colMap
  | some zonaIdx =>
    if dataRows.length == 0 then colMap
    else
      let nextCol := zonaIdx + 1
      if (dataRows.take 10).any (fun r =>
          KNOWN_PAYMENT_VALUES.contains (normalizeKey (cellStrOr "" (r.getD nextCol .empty)))) then
        mapSet colMap "medioPago" nextCol
      else colMap

structure LoopState where
  sales : List ParsedSale
  skippedRows : Nat
  duplicateRows : Nat
  duplicates : List DuplicateInfo
  seenKeys : List String
  deriving DecidableEq, Repr

def initState : LoopState :=
  ⟨[], 0, 0, [], []⟩

/-- One iteration of the row loop of `parseExcelFile`.  `rowIdx` is the
position of the row within `dataRows`: the rows of `sheet_to_json` are
distinct array objects, so the `dataRows.indexOf(row)` of the duplicate
branch is positional. -/
def processRow (colMap : ColMap) (rowIdx : Nat) (row : Row) (st : LoopState) : LoopState :=
  let dinero := jsToUpper (jsTrim (cellStrOr "" (getCell colMap row "dineroRecibido")))
  if dinero ≠ "PAGADO" then { st with skippedRows := st.skippedRows + 1 }
  else
    let vendedor := jsTrim (cellStrOr "" (getCell colMap row "vendedor"))
    if vendedor = "" then { st with skippedRows := st.skippedRows + 1 }
    else
      match parseDate (getCell colMap row "fecha") with
      | none => { st with skippedRows := st.skippedRows + 1 }
      | some fecha =>
        let customerName := jsTrim (cellStrOr "" (getCell colMap row "nombre"))
        let zone := jsTrim (cellStrOr "" (getCell colMap row "zona"))
        let plan := jsTrim (cellStrOr "" (getCell colMap row "plan"))
        let dateKey := isoDate fecha
        let dedupKey :=
          customerName ++ "|" ++ plan ++ "|" ++ vendedor ++ "|" ++ zone ++ "|" ++ dateKey
        if st.seenKeys.contains dedupKey then
          { st with
              duplicateRows := st.duplicateRows + 1
              duplicates := st.duplicates ++
                [⟨rowIdx + 2, customerName, vendedor, plan, zone, dateKey⟩] }
        else
          let refCodeStr := jsTrim (cellStrOr "" (getCell colMap row "referenciaRegistro"))
          let refCode := if refCodeStr = "" then none else some refCodeStr
          let gratisValue := jsToUpper (jsTrim (cellStrOr "" (getCell colMap row "gratis")))
          let installationType : InstallationType := if gratisValue = "GRATIS" then .FREE else .PAID
          let paymentMethod := jsTrim (cellStrOr "" (getCell colMap row "medioPago"))
          let currency := detectCurrency paymentMethod
          let subscriptionAmount := parseAmount (getCell colMap row "montoSuscripcion")
          { st with
              sales := st.sales ++
                [⟨fecha, customerName, vendedor, zone, plan, paymentMethod, refCode,
                  installationType, currency, subscriptionAmount⟩]
              seenKeys := st.seenKeys ++ [dedupKey] }

/-- The row loop of `parseExcelFile`, threading the row index. -/
def processFrom (colMap : ColMap) (i : Nat) (rows : List Row) (st : LoopState) : LoopState :=
  match rows with
  | [] => st
  | row :: rest => processFrom colMap (i + 1) rest (processRow colMap i row st)

/-- The column map `parseExcelFile` ends up using for its row loop: the
header-based map, then the unnamed-payment-column override. -/
def finalColMapOf (rows : List Row) : ColMap :=
  applyZonaOverride (normalizeHeaders ((rows.headD []).map cellToString)) (rows.drop 1)

/-- `parseExcelFile` from `src/lib/prisma.ts`, over the cell grid that the
XLSX layer produces from the first sheet. -/
def parseExcelFile (rows : List Row) : ParseResult :=
  if rows.length < 2 then
    ⟨[], 0, 0, 0, 0, [], [], []⟩
  else
    let headers := (rows.headD []).map cellToString
    let dataRows := rows.drop 1
    let totalRows := dataRows.length
    let colMap := finalColMapOf rows
    let final := processFrom colMap 0 dataRows initState
    ⟨final.sales, totalRows, final.sales.length, final.skippedRows, final.duplicateRows,
      final.duplicates, headers, colMap⟩

/-- The loop state after the first `k` data rows of a workbook. -/
def stAfter (rows : List Row) (k : Nat) : LoopState :=
  processFrom (finalColMapOf rows) 0 ((rows.drop 1).take k) initState

/-- Modelled from the spec: the `XLSX.read` decoding step of
`parseExcelFile`, an external library call.  A binary buffer is abstracted
to either `none` — an unreadable binary, classified by the spec as a
structural failure yielding no rows — or `some rows`, the cell grid of the
workbook's first sheet. -/
def parseExcelFileBuffer (buffer : Option (List Row)) : ParseResult :=
  parseExcelFile (buffer.getD [])

-- ── Commission resolver (server actions module) ──

inductive CommType where
  | FIXED
  | PERCENTAGE
  deriving DecidableEq, Repr

/-- `CommissionRuleData` from the actions module. -/
structure CommissionRuleData where
  sellerFreeType : CommType
  sellerFreeValue : ℚ
  sellerPaidType : CommType
  sellerPaidValue : ℚ
  installerFreeType : CommType
  installerFreeValue : ℚ
  installerPaidType : CommType
  installerPaidValue : ℚ
  deriving DecidableEq, Repr

/-- `CommissionConfigData` from the actions module. -/
structure CommissionConfigData where
  sellerFreeCommission : ℚ
  sellerPaidCommission : ℚ
  installerFreePercentage : ℚ
  installerPaidPercentage : ℚ
  deriving DecidableEq, Repr

/-- Database defaults of the `CommissionConfig` table
(migration `20260215043941_add_commission_config`: 8 / 10 / 0.5 / 0.7). -/
def defaultCommissionConfig : CommissionConfigData :=
  { sellerFreeCommission := 8
    sellerPaidCommission := 10
    installerFreePercentage := 1/2
    installerPaidPercentage := 7/10 }

structure CommResult where
  sellerComm : ℚ
  installerComm : ℚ
  deriving DecidableEq, Repr

/-- `resolveCommissions` from the actions module. -/
def resolveCommissions (installationType : InstallationType) (planPrice : ℚ)
    (rule : Option CommissionRuleData) (config : CommissionConfigData) : CommResult :=
  match rule with
  | some rule =>
    let sType := if installationType = .FREE then rule.sellerFreeType else rule.sellerPaidType
    let sVal := if installationType = .FREE then rule.sellerFreeValue else rule.sellerPaidValue
    let iType := if installationType = .FREE then rule.installerFreeType else rule.installerPaidType
    let iVal := if installationType = .FREE then rule.installerFreeValue else rule.installerPaidValue
    { sellerComm := if sType = .FIXED then sVal else planPrice * sVal
      installerComm := if iType = .FIXED then iVal else planPrice * iVal }
  | none =>
    let sellerComm :=
      if installationType = .FREE then config.sellerFreeCommission else config.sellerPaidCommission
    let installerComm :=
      if installationType = .FREE then planPrice * config.installerFreePercentage
      else planPrice * config.installerPaidPercentage
    { sellerComm := sellerComm, installerComm := installerComm }

-- ── Claim vocabulary ──

/-- The dedup key a stored sale contributes: the same pipe-joined formula the
row loop computes, read off the transaction's own fields. -/
def saleKey (s : ParsedSale) : String :=
  s.customerName ++ "|" ++ s.plan ++ "|" ++ s.sellerName ++ "|" ++ s.zone ++ "|" ++
    isoDate s.transactionDate

/-- The (customer, plan, seller, zone, day) 5-tuple of a data row that passes
the validity checks of the row loop; `none` when the row is skipped before
the dedup step is reached. -/
def rowTuple (colMap : ColMap) (row : Row) :
    Option (String × String × String × String × SDate) :=
  let dinero := jsToUpper (jsTrim (cellStrOr "" (getCell colMap row "dineroRecibido")))
  if dinero ≠ "PAGADO" then none
  else
    let vendedor := jsTrim (cellStrOr "" (getCell colMap row "vendedor"))
    if vendedor = "" then none
    else
      match parseDate (getCell colMap row "fecha") with
      | none => none
      | some fecha =>
        some (jsTrim (cellStrOr "" (getCell colMap row "nombre")),
              jsTrim (cellStrOr "" (getCell colMap row "plan")),
              vendedor,
              jsTrim (cellStrOr "" (getCell colMap row "zona")),
              fecha)

/-- The raw (customer, plan, seller, zone, day) field reading of a data row,
defined whenever the date cell parses — regardless of whether the row passes
the validity checks. -/
def rawRowTuple (colMap : ColMap) (row : Row) :
    Option (String × String × String × String × SDate) :=
  match parseDate (getCell colMap row "fecha") with
  | none => none
  | some fecha =>
    some (jsTrim (cellStrOr "" (getCell colMap row "nombre")),
          jsTrim (cellStrOr "" (getCell colMap row "plan")),
          jsTrim (cellStrOr "" (getCell colMap row "vendedor")),
          jsTrim (cellStrOr "" (getCell colMap row "zona")),
          fecha)

/-- The pipe-joined dedup key of a 5-tuple. -/
def tupleKey (t : String × String × String × String × SDate) : String :=
  t.1 ++ "|" ++ t.2.1 ++ "|" ++ t.2.2.1 ++ "|" ++ t.2.2.2.1 ++ "|" ++ isoDate t.2.2.2.2

/-- A cell is amount-safe when it is not a negative number: numeric cells are
the only ones `parseAmount` passes through unchanged. -/
def cellNumOk (c : Cell) : Prop :=
  match c with
  | .num q => 0 ≤ q
  | _ => True

instance : DecidablePred cellNumOk := fun c =>
  match c with
  | .num q => inferInstanceAs (Decidable (0 ≤ q))
  | .str _ => isTrue trivial
  | .empty => isTrue trivial

/-- Index of the last enumerated header whose normalized text maps to
canonical key `k`. -/
def lastMatchIdx (l : List (Nat × String)) (k : String) : Option Nat :=
  ((l.filter (fun p => tableGet COLUMN_MAP (normalizeKey p.2) == some k)).getLast?).map Prod.fst

/-- Index of the first enumerated header whose normalized text maps to
canonical key `k`. -/
def firstMatchIdx (l : List (Nat × String)) (k : String) : Option Nat :=
  ((l.filter (fun p => tableGet COLUMN_MAP (normalizeKey p.2) == some k)).head?).map Prod.fst

-- ── Concrete workbooks used by scenario claims ──

/-- A header row mapping the columns the validity checks read. -/
def wbHeader : Row :=
  [.str "fecha", .str "nombre", .str "zona", .str "gratis", .str "plan",
   .str "vendedor", .str "dinero recibido wellcomm", .str "monto suscripcion",
   .str "referencia de registro"]

/-- An accepted data row: payment confirmed, seller "Ana", day-first date. -/
def wbRowOk : Row :=
  [.str "15/03/2024", .str "Cliente Uno", .str "Norte", .str "", .str "Plan A",
   .str "Ana", .str "pagado", .num 30, .str "REF1"]

/-- Same 5-tuple as `wbRowOk` but different amount, payment state confirmed:
a true duplicate. -/
def wbRowDup : Row :=
  [.str "15/03/2024", .str "Cliente Uno", .str "Norte", .str "", .str "Plan A",
   .str "Ana", .str "PAGADO", .num 99, .str "OTHER"]

/-- Same 5-tuple as `wbRowOk` but with an empty payment-confirmed cell: the
row fails the PAGADO check before the dedup step. -/
def wbRowSameTupleUnpaid : Row :=
  [.str "15/03/2024", .str "Cliente Uno", .str "Norte", .str "", .str "Plan A",
   .str "Ana", .str "", .num 99, .str "OTHER"]

/-- An accepted row whose numeric amount cell is negative. -/
def wbRowNegAmount : Row :=
  [.str "15/03/2024", .str "Otro Cliente", .str "Sur", .str "", .str "Plan B",
   .str "Ana", .str "pagado", .num (-5), .str ""]

/-- A header row with no column mapping to `dineroRecibido`. -/
def wbNoDineroHeader : Row :=
  [.str "fecha", .str "nombre", .str "vendedor"]

/-- A data row that would be perfectly valid if the payment-confirmed column
were mapped. -/
def wbNoDineroRow : Row :=
  [.str "15/03/2024", .str "Cliente Dos", .str "Ana"]

-- ── Theorems ──

/-- Every row-loop step classifies its row exactly once: accepted, skipped or
duplicate. -/
theorem processRow_count (cm : ColMap) (i : Nat) (row : Row) (st : LoopState) :
    (processRow cm i row st).sales.length + (processRow cm i row st).skippedRows +
      (processRow cm i row st).duplicateRows =
      st.sales.length + st.skippedRows + st.duplicateRows + 1 := by
  simp only [processRow]
  repeat' split
  all_goals simp +arith [List.length_append]

/-- Accumulated form of `processRow_count` over a list of data rows. -/
theorem processFrom_count (cm : ColMap) (l : List Row) (i : Nat) (st : LoopState) :
    (processFrom cm i l st).sales.length + (processFrom cm i l st).skippedRows +
      (processFrom cm i l st).duplicateRows =
      st.sales.length + st.skippedRows + st.duplicateRows + l.length := by
  induction l generalizing i st with
  | nil => simp [processFrom]
  | cons row rest ih =>
    simp only [processFrom, List.length_cons]
    have h1 := processRow_count cm i row st
    have h2 := ih (i + 1) (processRow cm i row st)
    omega

/-- C1: for every input grid, `totalRows = validRows + skippedRows +
duplicateRows`, `validRows` is the length of the returned sales list, and
`totalRows` is the number of non-header rows read; each rejected row lands in
exactly one of the skip or duplicate counters. -/
theorem parseExcelFile_count_identity (rows : List Row) :
    (parseExcelFile rows).totalRows =
      (parseExcelFile rows).validRows + (parseExcelFile rows).skippedRows +
        (parseExcelFile rows).duplicateRows ∧
    (parseExcelFile rows).validRows = (parseExcelFile rows).sales.length ∧
    (parseExcelFile rows).totalRows = (rows.drop 1).length := by
  by_cases h : rows.length < 2
  · refine ⟨by simp [parseExcelFile, h], by simp [parseExcelFile, h], ?_⟩
    simp only [parseExcelFile, if_pos h]
    simp [List.length_drop]
    omega
  · have hc := processFrom_count (finalColMapOf rows) (rows.drop 1) 0 initState
    simp [initState, List.drop_one, List.length_tail] at hc
    refine ⟨?_, by simp [parseExcelFile, h], by simp [parseExcelFile, h]⟩
    simp only [parseExcelFile, if_neg h]
    simp [List.drop_one, List.length_tail, initState]
    omega

/-- C2: when a per-seller rule is present, the global config never influences
either commission: the result is the same under any two configs. -/
theorem resolveCommissions_rule_shields_config (installationType : InstallationType)
    (planPrice : ℚ) (rule : CommissionRuleData) (config₁ config₂ : CommissionConfigData) :
    resolveCommissions installationType planPrice (some rule) config₁ =
      resolveCommissions installationType planPrice (some rule) config₂ := rfl

/-- C3: without a rule, the seller commission is the config's fixed amount for
the installation type and the installer commission is `planPrice` times the
config's percentage for that type; with the default config, PAID at price 100
yields seller 10 and installer 70. -/
theorem resolveCommissions_global_scheme (planPrice : ℚ) (config : CommissionConfigData) :
    resolveCommissions .FREE planPrice none config =
      ⟨config.sellerFreeCommission, planPrice * config.installerFreePercentage⟩ ∧
    resolveCommissions .PAID planPrice none config =
      ⟨config.sellerPaidCommission, planPrice * config.installerPaidPercentage⟩ ∧
    resolveCommissions .PAID 100 none defaultCommissionConfig = ⟨10, 70⟩ := by
  refine ⟨rfl, rfl, ?_⟩
  simp [resolveCommissions, defaultCommissionConfig]
  norm_num

/-- C6: every structurally degenerate input — an unreadable binary (`none`),
an empty workbook, or a first sheet with fewer than 2 rows — yields the
all-zero, all-empty `ParseResult` rather than an error. -/
theorem parseExcelFile_degenerate (buffer : Option (List Row))
    (h : buffer = none ∨ (buffer.getD []).length < 2) :
    parseExcelFileBuffer buffer = ⟨[], 0, 0, 0, 0, [], [], []⟩ := by
  rcases h with h | h
  · subst h; rfl
  · simp [parseExcelFileBuffer, parseExcelFile, h]

/-- Witness for `parseExcelFile_degenerate` at the unreadable-binary input. -/
theorem parseExcelFile_degenerate_witness :
    ((none : Option (List Row)) = none ∨ ((none : Option (List Row)).getD []).length < 2) ∧
      parseExcelFileBuffer none = ⟨[], 0, 0, 0, 0, [], [], []⟩ :=
  ⟨Or.inl rfl, parseExcelFile_degenerate none (Or.inl rfl)⟩

/-- String input to `parseAmount` always goes through clean-then-parseFloat
with fallback 0 (also for the empty string, whose substituted "0" parses to
the same value 0 the fallback would give). -/
theorem parseAmount_str_eq (s : String) :
    parseAmount (.str s) =
      (jsParseFloat (replaceFirstComma (s.data.filter
        (fun c => c.isDigit || c == '.' || c == ',')))).getD 0 := by
  by_cases hs : s = ""
  · subst hs
    have hL : parseAmount (.str "") =
        (digitsToNat ['0'] : ℚ) + (digitsToNat ([] : List Char) : ℚ) / 10 ^ (0 : Nat) := rfl
    have hR : jsParseFloat (replaceFirstComma (("".data).filter
        (fun c => c.isDigit || c == '.' || c == ','))) = none := rfl
    rw [hL, hR]
    have h4 : digitsToNat ['0'] = 0 := by decide
    rw [h4]
    norm_num [digitsToNat]
  · simp only [parseAmount, cellStrOr, if_neg hs]
    rcases jsParseFloat (replaceFirstComma (s.data.filter
      (fun c => c.isDigit || c == '.' || c == ','))) with _ | q <;> simp

/-- C7: `parseAmount` returns numeric input unchanged; a string is stripped to
digits, dots and commas, its first comma becomes a dot, and the result is
float-parsed with fallback 0; `parseAmount "1.234,56" = 1.234` (the parse
stops at the second dot). -/
theorem parseAmount_behavior :
    (∀ q : ℚ, parseAmount (.num q) = q) ∧
    (∀ s : String, parseAmount (.str s) =
      (jsParseFloat (replaceFirstComma (s.data.filter
        (fun c => c.isDigit || c == '.' || c == ',')))).getD 0) ∧
    parseAmount (.str "1.234,56") = 617 / 500 := by
  refine ⟨fun q => rfl, parseAmount_str_eq, ?_⟩
  have hL : parseAmount (.str "1.234,56") =
      (digitsToNat ['1'] : ℚ) + (digitsToNat ['2', '3', '4'] : ℚ) / 10 ^ (3 : Nat) := rfl
  rw [hL]
  have h1 : digitsToNat ['1'] = 1 := by decide
  have h2 : digitsToNat ['2', '3', '4'] = 234 := by decide
  rw [h1, h2]
  norm_num

/-- C8: a row with lowercase "pagado", seller "Ana", date "15/03/2024" and an
empty `gratis` cell is accepted, with installation type PAID and transaction
date March 15 2024; the general date-string parse rejects the day-first
string and the split-on-slash day-month-year fallback produces the date. -/
theorem parseExcelFile_lowercase_pagado_scenario :
    jsToUpper (jsTrim "pagado") = "PAGADO" ∧
    jsDateFromString "15/03/2024" = none ∧
    parseDate (.str "15/03/2024") = some ⟨2024, 3, 15⟩ ∧
    (parseExcelFile [wbHeader, wbRowOk]).sales =
      [⟨⟨2024, 3, 15⟩, "Cliente Uno", "Ana", "Norte", "Plan A", "", some "REF1",
        .PAID, .USD, 30⟩] := by decide

/-- Values produced by `jsParseFloat` are built from digit runs only and are
never negative. -/
theorem jsParseFloat_nonneg (cs : List Char) (q : ℚ) (h : jsParseFloat cs = some q) :
    0 ≤ q := by
  simp only [jsParseFloat] at h
  split at h
  · exact absurd h (by simp)
  · simp only [Option.some.injEq] at h
    subst h
    positivity

/-- `parseAmount` is non-negative on every amount-safe cell. -/
theorem parseAmount_nonneg (v : Cell) (h : cellNumOk v) : 0 ≤ parseAmount v := by
  match v with
  | .num q => exact h
  | .str s =>
    rw [parseAmount_str_eq]
    rcases hf : jsParseFloat (replaceFirstComma (s.data.filter
      (fun c => c.isDigit || c == '.' || c == ','))) with _ | q
    · simp
    · simpa using jsParseFloat_nonneg _ q hf
  | .empty =>
    have hL : parseAmount .empty =
        (digitsToNat ['0'] : ℚ) + (digitsToNat ([] : List Char) : ℚ) / 10 ^ (0 : Nat) := rfl
    rw [hL]
    positivity

/-- The cell an accepted row's amount is parsed from is either empty or one of
the row's own cells. -/
theorem getCell_cases (cm : ColMap) (row : Row) (k : String) :
    getCell cm row k = .empty ∨ getCell cm row k ∈ row := by
  rcases hm : mapGet cm k with _ | idx
  · left
    simp [getCell, hm]
  · by_cases hlt : idx < row.length
    · right
      simp only [getCell, hm]
      rw [List.getD_eq_getElem _ _ hlt]
      exact List.getElem_mem hlt
    · left
      simp only [getCell, hm]
      exact List.getD_eq_default _ _ (by omega)

/-- One loop step preserves non-negativity of all stored amounts, provided
the row's cells are amount-safe. -/
theorem processRow_amount_inv (cm : ColMap) (i : Nat) (row : Row) (st : LoopState)
    (hrow : ∀ c ∈ row, cellNumOk c)
    (hst : ∀ s ∈ st.sales, 0 ≤ s.subscriptionAmount) :
    ∀ s ∈ (processRow cm i row st).sales, 0 ≤ s.subscriptionAmount := by
  have hcell : cellNumOk (getCell cm row "montoSuscripcion") := by
    rcases getCell_cases cm row "montoSuscripcion" with h | h
    · rw [h]; trivial
    · exact hrow _ h
  simp only [processRow]
  repeat' split
  all_goals intro s hs
  all_goals first
    | exact hst s hs
    | (rcases List.mem_append.mp hs with h | h
       · exact hst s h
       · simp only [List.mem_singleton] at h
         subst h
         exact parseAmount_nonneg _ hcell)

/-- Accumulated form of `processRow_amount_inv`. -/
theorem processFrom_amount_inv (cm : ColMap) (l : List Row) (i : Nat) (st : LoopState)
    (hl : ∀ row ∈ l, ∀ c ∈ row, cellNumOk c)
    (hst : ∀ s ∈ st.sales, 0 ≤ s.subscriptionAmount) :
    ∀ s ∈ (processFrom cm i l st).sales, 0 ≤ s.subscriptionAmount := by
  induction l generalizing i st with
  | nil => simpa [processFrom] using hst
  | cons row rest ih =>
    simp only [processFrom]
    exact ih (i + 1) _ (fun r hr => hl r (List.mem_cons_of_mem _ hr))
      (processRow_amount_inv cm i row st (hl row (List.mem_cons_self _ _)) hst)

/-- C5 (amended): when no numeric cell of the workbook is negative, every
accepted transaction has a non-negative `subscriptionAmount`; `parseAmount`
is non-negative on every cell that is not a negative number, and an
unparseable string yields 0.  (Unamended the claim fails: a negative numeric
amount cell passes through unchanged — see the counterexample.) -/
theorem parseExcelFile_amount_nonneg_amended (rows : List Row)
    (h : ∀ row ∈ rows, ∀ c ∈ row, cellNumOk c) :
    (∀ s ∈ (parseExcelFile rows).sales, 0 ≤ s.subscriptionAmount) ∧
    (∀ v : Cell, cellNumOk v → 0 ≤ parseAmount v) ∧
    (∀ s : String, jsParseFloat (replaceFirstComma (s.data.filter
        (fun c => c.isDigit || c == '.' || c == ','))) = none →
      parseAmount (.str s) = 0) := by
  refine ⟨?_, fun v hv => parseAmount_nonneg v hv, fun s hs => ?_⟩
  · by_cases hlen : rows.length < 2
    · simp [parseExcelFile, hlen]
    · simp only [parseExcelFile, if_neg hlen]
      exact processFrom_amount_inv _ _ 0 initState
        (fun r hr => h r (List.mem_of_mem_drop hr)) (by simp [initState])
  · rw [parseAmount_str_eq, hs]
    rfl

/-- Witness for `parseExcelFile_amount_nonneg_amended` on a concrete
workbook whose numeric cells are all non-negative. -/
theorem parseExcelFile_amount_nonneg_amended_witness :
    (∀ row ∈ [wbHeader, wbRowOk], ∀ c ∈ row, cellNumOk c) ∧
    (∀ s ∈ (parseExcelFile [wbHeader, wbRowOk]).sales, 0 ≤ s.subscriptionAmount) :=
  ⟨by decide, (parseExcelFile_amount_nonneg_amended [wbHeader, wbRowOk] (by decide)).1⟩

/-- C5 counterexample: an accepted row whose numeric amount cell is −5 yields
a transaction with `subscriptionAmount = −5 < 0`, refuting the unrestricted
claim that every possible cell value leads to a non-negative stored amount. -/
theorem parseExcelFile_amount_negative_counterexample :
    (parseExcelFile [wbHeader, wbRowNegAmount]).validRows = 1 ∧
    (parseExcelFile [wbHeader, wbRowNegAmount]).sales.map
      (fun s => s.subscriptionAmount) = [-5] ∧
    parseAmount (.num (-5)) = -5 := by decide

theorem mapGet_map_ne (m : List (String × Nat)) (k : String) (v : Nat) (k' : String)
    (h : k' ≠ k) :
    mapGet (m.map (fun p => if p.1 = k then (k, v) else p)) k' = mapGet m k' := by
  induction m with
  | nil => rfl
  | cons p rest ih =>
    obtain ⟨pk, pv⟩ := p
    simp only [List.map_cons]
    dsimp only
    by_cases hp : pk = k
    · rw [if_pos hp]
      have hkpk : ¬ k' = pk := by rw [hp]; exact h
      simp only [mapGet]
      rw [if_neg h, if_neg hkpk]
      exact ih
    · rw [if_neg hp]
      simp only [mapGet]
      by_cases hk : k' = pk
      · rw [if_pos hk, if_pos hk]
      · rw [if_neg hk, if_neg hk]
        exact ih

theorem mapGet_map_self (m : List (String × Nat)) (k : String) (v : Nat)
    (h : k ∈ m.map Prod.fst) :
    mapGet (m.map (fun p => if p.1 = k then (k, v) else p)) k = some v := by
  induction m with
  | nil => simp at h
  | cons p rest ih =>
    obtain ⟨pk, pv⟩ := p
    simp only [List.map_cons] at h
    simp only [List.map_cons]
    dsimp only
    by_cases hp : pk = k
    · rw [if_pos hp]
      simp [mapGet]
    · rw [if_neg hp]
      simp only [mapGet]
      have hkp : ¬ k = pk := fun e => hp e.symm
      rw [if_neg hkp]
      refine ih ?_
      rcases List.mem_cons.mp h with h0 | h0
      · exact absurd h0 hkp
      · exact h0

theorem mapGet_eq_none_of_not_mem (m : List (String × Nat)) (k : String)
    (h : k ∉ m.map Prod.fst) :
    mapGet m k = none := by
  induction m with
  | nil => rfl
  | cons p rest ih =>
    obtain ⟨pk, pv⟩ := p
    simp only [List.map_cons, List.mem_cons, not_or] at h
    simp only [mapGet]
    rw [if_neg h.1]
    exact ih h.2

theorem mapGet_append_single (m : List (String × Nat)) (k : String) (v : Nat) (k' : String) :
    mapGet (m ++ [(k, v)]) k' =
      (mapGet m k').or (if k' = k then some v else none) := by
  induction m with
  | nil =>
    by_cases hk : k' = k <;> simp [mapGet, hk]
  | cons p rest ih =>
    obtain ⟨pk, pv⟩ := p
    simp only [List.cons_append, mapGet]
    by_cases hk : k' = pk
    · rw [if_pos hk, if_pos hk]
      simp
    · rw [if_neg hk, if_neg hk]
      exact ih

theorem mapGet_mapSet (m : List (String × Nat)) (k : String) (v : Nat) (k' : String) :
    mapGet (mapSet m k v) k' = if k' = k then some v else mapGet m k' := by
  unfold mapSet
  by_cases hmem : k ∈ m.map Prod.fst
  · rw [if_pos hmem]
    by_cases hk : k' = k
    · subst hk
      rw [if_pos rfl, mapGet_map_self m k' v hmem]
    · rw [if_neg hk, mapGet_map_ne m k v k' hk]
  · rw [if_neg hmem, mapGet_append_single]
    by_cases hk : k' = k
    · subst hk
      rw [mapGet_eq_none_of_not_mem m k' hmem]
      simp
    · cases hm : mapGet m k' <;> simp [hk, hm]

theorem tableGet_mem (t : List (String × String)) (s v : String)
    (h : tableGet t s = some v) :
    (s, v) ∈ t := by
  induction t with
  | nil => cases h
  | cons p rest ih =>
    obtain ⟨pk, pv⟩ := p
    by_cases hp : s = pk
    · subst hp
      simp [tableGet] at h
      simp [List.mem_cons, h]
    · simp only [tableGet, if_neg hp] at h
      exact List.mem_cons_of_mem _ (ih h)

theorem getLast?_cons_or {α : Type} (a : α) (l : List α) :
    (a :: l).getLast? = l.getLast?.or (some a) := by
  induction l generalizing a with
  | nil => rfl
  | cons b m ih =>
    rw [List.getLast?_cons_cons, ih b]
    cases m.getLast? <;> simp

theorem firstMatchIdx_cons (i : Nat) (hh : String) (l : List (Nat × String)) (k : String) :
    firstMatchIdx ((i, hh) :: l) k =
      if tableGet COLUMN_MAP (normalizeKey hh) = some k then some i
      else firstMatchIdx l k := by
  unfold firstMatchIdx
  by_cases h : tableGet COLUMN_MAP (normalizeKey hh) = some k
  · simp [List.filter_cons, h]
  · simp [List.filter_cons, h]

theorem lastMatchIdx_cons (i : Nat) (hh : String) (l : List (Nat × String)) (k : String) :
    lastMatchIdx ((i, hh) :: l) k =
      if tableGet COLUMN_MAP (normalizeKey hh) = some k then (lastMatchIdx l k).or (some i)
      else lastMatchIdx l k := by
  unfold lastMatchIdx
  by_cases h : tableGet COLUMN_MAP (normalizeKey hh) = some k
  · rw [if_pos h]
    simp only [List.filter_cons]
    rw [if_pos (by simpa using h)]
    rw [getLast?_cons_or]
    cases (l.filter (fun p => tableGet COLUMN_MAP (normalizeKey p.2) == some k)).getLast? <;> simp
  · rw [if_neg h]
    simp only [List.filter_cons]
    rw [if_neg (by simpa using h)]

theorem normHeadersAux_get (l : List (Nat × String)) (m : ColMap) (f : Bool) (k : String) :
    mapGet (normHeadersAux l m f) k =
      if k = "montoSuscripcion" then
        (if f then mapGet m k else (firstMatchIdx l k).or (mapGet m k))
      else (lastMatchIdx l k).or (mapGet m k) := by
  induction l generalizing m f with
  | nil =>
    simp only [normHeadersAux, firstMatchIdx, lastMatchIdx, List.filter_nil,
      List.getLast?_nil, List.head?_nil, Option.map_none, Option.none_or]
    split
    · split <;> rfl
    · rfl
  | cons p l ih =>
    obtain ⟨i, hh⟩ := p
    rw [firstMatchIdx_cons, lastMatchIdx_cons]
    rcases ht : tableGet COLUMN_MAP (normalizeKey hh) with _ | mapped
    · rw [if_neg (fun h : (none : Option String) = some k => Option.noConfusion h),
        if_neg (fun h : (none : Option String) = some k => Option.noConfusion h)]
      simp only [normHeadersAux, ht]
      exact ih m f
    · simp only [normHeadersAux, ht]
      by_cases hmonto : mapped = "montoSuscripcion"
      · subst hmonto
        cases f with
        | true =>
          rw [if_pos ⟨rfl, rfl⟩, ih m true]
          by_cases hk : k = "montoSuscripcion"
          · subst hk
            simp
          · simp [hk, Ne.symm hk]
        | false =>
          rw [if_neg (by simp)]
          simp only [Bool.false_or, beq_self_eq_true]
          rw [ih (mapSet m "montoSuscripcion" i) true]
          by_cases hk : k = "montoSuscripcion"
          · subst hk
            rw [mapGet_mapSet]
            simp
          · rw [mapGet_mapSet, if_neg hk]
            simp [hk, Ne.symm hk]
      · rw [if_neg (fun hc => hmonto hc.1)]
        have hbeq : (mapped == "montoSuscripcion") = false := by simpa using hmonto
        simp only [hbeq, Bool.or_false]
        rw [ih (mapSet m mapped i) f]
        by_cases hmk : mapped = k
        · have hknm : ¬ k = "montoSuscripcion" := fun e => hmonto (hmk.trans e)
          rw [if_neg hknm, if_neg hknm, mapGet_mapSet, if_pos hmk.symm]
          simp only [Option.some.injEq, hmk, if_pos rfl]
          cases lastMatchIdx l k <;> simp
        · have hkm : ¬ k = mapped := fun e => hmk e.symm
          rw [mapGet_mapSet m mapped i k, if_neg hkm]
          have hsome : ¬ (some mapped = some k) := by simp [hmk]
          rw [if_neg hsome, if_neg hsome]

/-- C10: among several headers mapping to the same canonical key, the last
occurrence's column index wins for every key except `montoSuscripcion`, for
which the first occurrence wins and later ones are ignored. -/
theorem normalizeHeaders_occurrence_policy (headers : List String) (k : String)
    (hk : k ≠ "montoSuscripcion") :
    mapGet (normalizeHeaders headers) k = lastMatchIdx headers.enum k ∧
    mapGet (normalizeHeaders headers) "montoSuscripcion" =
      firstMatchIdx headers.enum "montoSuscripcion" := by
  constructor
  · rw [normalizeHeaders, normHeadersAux_get, if_neg hk]
    cases lastMatchIdx headers.enum k <;> simp [mapGet]
  · rw [normalizeHeaders, normHeadersAux_get, if_pos rfl]
    simp only [Bool.false_eq_true, if_false]
    cases firstMatchIdx headers.enum "montoSuscripcion" <;> simp [mapGet]

/-- Witness for `normalizeHeaders_occurrence_policy`: with two `medioPago`
synonyms the later one (index 1) wins, and of two subscription-amount
headers the earlier one (index 2) wins. -/
theorem normalizeHeaders_occurrence_policy_witness :
    ("medioPago" ≠ "montoSuscripcion") ∧
    (mapGet (normalizeHeaders
        ["pago", "medio de pago", "monto suscripcion", "monto suscripcion"]) "medioPago" =
      lastMatchIdx
        (["pago", "medio de pago", "monto suscripcion", "monto suscripcion"].enum) "medioPago" ∧
     mapGet (normalizeHeaders
        ["pago", "medio de pago", "monto suscripcion", "monto suscripcion"]) "montoSuscripcion" =
      firstMatchIdx
        (["pago", "medio de pago", "monto suscripcion", "monto suscripcion"].enum)
        "montoSuscripcion") ∧
    mapGet (normalizeHeaders
        ["pago", "medio de pago", "monto suscripcion", "monto suscripcion"]) "medioPago" = some 1 ∧
    mapGet (normalizeHeaders
        ["pago", "medio de pago", "monto suscripcion", "monto suscripcion"]) "montoSuscripcion" =
      some 2 :=
  ⟨by decide,
   normalizeHeaders_occurrence_policy
     ["pago", "medio de pago", "monto suscripcion", "monto suscripcion"] "medioPago" (by decide),
   by decide, by decide⟩

/-- Only the "dinero recibido wellcomm" synonym maps to `dineroRecibido`. -/
theorem columnMap_dinero_unique (s : String)
    (h : tableGet COLUMN_MAP s = some "dineroRecibido") :
    s = "dinero recibido wellcomm" := by
  have hmem := tableGet_mem COLUMN_MAP s "dineroRecibido" h
  have hall : ∀ p ∈ COLUMN_MAP, p.2 = "dineroRecibido" → p.1 = "dinero recibido wellcomm" := by
    decide
  exact hall _ hmem rfl

/-- The data-sampling override only ever remaps `medioPago`; every other key
reads the same before and after. -/
theorem applyZonaOverride_get_ne (cm : ColMap) (dataRows : List Row) (k : String)
    (hk : k ≠ "medioPago") :
    mapGet (applyZonaOverride cm dataRows) k = mapGet cm k := by
  unfold applyZonaOverride
  rcases hz : mapGet cm "zona" with _ | zonaIdx
  · rfl
  · dsimp only
    split
    · rfl
    · split
      · rw [mapGet_mapSet, if_neg hk]
      · rfl

/-- With no `dineroRecibido` column mapped, every row reads an empty
payment-confirmed cell and is skipped. -/
theorem processRow_skip_of_no_dinero (cm : ColMap) (i : Nat) (row : Row) (st : LoopState)
    (hd : mapGet cm "dineroRecibido" = none) :
    processRow cm i row st = { st with skippedRows := st.skippedRows + 1 } := by
  have hcell : getCell cm row "dineroRecibido" = .empty := by
    simp [getCell, hd]
  have hval : jsToUpper (jsTrim (cellStrOr "" (getCell cm row "dineroRecibido"))) = "" := by
    rw [hcell]
    decide
  simp only [processRow, hval]
  rw [if_pos (by decide)]

/-- Accumulated form of `processRow_skip_of_no_dinero`. -/
theorem processFrom_skip_all (cm : ColMap) (l : List Row) (i : Nat) (st : LoopState)
    (hd : mapGet cm "dineroRecibido" = none) :
    processFrom cm i l st = { st with skippedRows := st.skippedRows + l.length } := by
  induction l generalizing i st with
  | nil => simp [processFrom]
  | cons row rest ih =>
    simp only [processFrom, processRow_skip_of_no_dinero cm (i := i) row st hd]
    rw [ih]
    simp +arith

/-- C9: when no header normalizes to the `dineroRecibido` synonym, every data
row of a (non-degenerate) workbook is skipped: the missing cell reads as
empty, never equals "PAGADO", so `skippedRows = totalRows`, no row is valid,
and the sales and duplicates lists are empty. -/
theorem parseExcelFile_missing_dinero_column (rows : List Row)
    (h2 : 2 ≤ rows.length)
    (h : ∀ s ∈ (rows.headD []).map cellToString, normalizeKey s ≠ "dinero recibido wellcomm") :
    (parseExcelFile rows).skippedRows = (parseExcelFile rows).totalRows ∧
    (parseExcelFile rows).validRows = 0 ∧
    (parseExcelFile rows).sales = [] ∧
    (parseExcelFile rows).duplicates = [] := by
  have hnot : ¬ rows.length < 2 := by omega
  have hnomatch : ∀ p ∈ ((rows.headD []).map cellToString).enum,
      ¬ tableGet COLUMN_MAP (normalizeKey p.2) = some "dineroRecibido" := by
    intro p hp hcontra
    have hsnd : p.2 ∈ (rows.headD []).map cellToString := by
      have := List.enum_map_snd ((rows.headD []).map cellToString)
      exact this ▸ List.mem_map_of_mem Prod.snd hp
    exact h p.2 hsnd (columnMap_dinero_unique _ hcontra)
  have hlast : lastMatchIdx ((rows.headD []).map cellToString).enum "dineroRecibido" = none := by
    unfold lastMatchIdx
    have hfeq : (((rows.headD []).map cellToString).enum.filter
        (fun p => tableGet COLUMN_MAP (normalizeKey p.2) == some "dineroRecibido")) = [] := by
      rw [List.filter_eq_nil_iff]
      intro p hp
      simpa using hnomatch p hp
    rw [hfeq]
    rfl
  have hd0 : mapGet (normalizeHeaders ((rows.headD []).map cellToString)) "dineroRecibido" = none := by
    rw [normalizeHeaders, normHeadersAux_get, if_neg (by decide)]
    rw [hlast]
    rfl
  have hd : mapGet (finalColMapOf rows) "dineroRecibido" = none := by
    unfold finalColMapOf
    rw [applyZonaOverride_get_ne _ _ _ (by decide)]
    exact hd0
  simp only [parseExcelFile, if_neg hnot]
  rw [processFrom_skip_all _ _ 0 initState hd]
  simp [initState]

/-- Witness for `parseExcelFile_missing_dinero_column` on a workbook whose
headers are `fecha`, `nombre`, `vendedor` only. -/
theorem parseExcelFile_missing_dinero_column_witness :
    (2 ≤ ([wbNoDineroHeader, wbNoDineroRow] : List Row).length) ∧
    (∀ s ∈ (([wbNoDineroHeader, wbNoDineroRow] : List Row).headD []).map cellToString,
      normalizeKey s ≠ "dinero recibido wellcomm") ∧
    (parseExcelFile [wbNoDineroHeader, wbNoDineroRow]).skippedRows =
      (parseExcelFile [wbNoDineroHeader, wbNoDineroRow]).totalRows ∧
    (parseExcelFile [wbNoDineroHeader, wbNoDineroRow]).validRows = 0 :=
  ⟨by decide, by decide,
   (parseExcelFile_missing_dinero_column [wbNoDineroHeader, wbNoDineroRow]
     (by decide) (by decide)).1,
   (parseExcelFile_missing_dinero_column [wbNoDineroHeader, wbNoDineroRow]
     (by decide) (by decide)).2.1⟩

theorem processFrom_append (cm : ColMap) (xs ys : List Row) (i : Nat) (st : LoopState) :
    processFrom cm i (xs ++ ys) st =
      processFrom cm (i + xs.length) ys (processFrom cm i xs st) := by
  induction xs generalizing i st with
  | nil => simp [processFrom]
  | cons row rest ih =>
    simp only [List.cons_append, processFrom, List.length_cons, List.append_eq]
    rw [ih]
    congr 1
    omega

theorem stAfter_succ (rows : List Row) (j : Nat) (hj : j < (rows.drop 1).length) :
    stAfter rows (j + 1) =
      processRow (finalColMapOf rows) j ((rows.drop 1).getD j []) (stAfter rows j) := by
  unfold stAfter
  have hlen : ((rows.drop 1).take j).length = j := by
    rw [List.length_take]
    omega
  rw [List.take_succ, processFrom_append, List.getElem?_eq_getElem hj]
  rw [List.getD_eq_getElem _ _ hj]
  simp only [Option.toList_some, processFrom, hlen, Nat.zero_add]

/-- A row failing a validity check changes only the skip counter. -/
theorem processRow_of_skip (cm : ColMap) (i : Nat) (row : Row) (st : LoopState)
    (ht : rowTuple cm row = none) :
    (processRow cm i row st).sales = st.sales ∧
    (processRow cm i row st).seenKeys = st.seenKeys := by
  simp only [rowTuple] at ht
  simp only [processRow]
  by_cases h1 : jsToUpper (jsTrim (cellStrOr "" (getCell cm row "dineroRecibido"))) ≠ "PAGADO"
  · rw [if_pos h1]
    exact ⟨rfl, rfl⟩
  · rw [if_neg h1] at ht
    rw [if_neg h1]
    by_cases h2 : jsTrim (cellStrOr "" (getCell cm row "vendedor")) = ""
    · rw [if_pos h2]
      exact ⟨rfl, rfl⟩
    · rw [if_neg h2] at ht
      rw [if_neg h2]
      rcases hf : parseDate (getCell cm row "fecha") with _ | fecha
      · exact ⟨rfl, rfl⟩
      · rw [hf] at ht
        cases ht

/-- A row that passes the validity checks is classified by its dedup key: a
seen key is recorded as a duplicate, a fresh key is accepted and marked
seen. -/
theorem processRow_of_tuple (cm : ColMap) (i : Nat) (row : Row) (st : LoopState)
    (t : String × String × String × String × SDate)
    (ht : rowTuple cm row = some t) :
    (tupleKey t ∈ st.seenKeys →
      processRow cm i row st = { st with
        duplicateRows := st.duplicateRows + 1,
        duplicates := st.duplicates ++
          [⟨i + 2, t.1, t.2.2.1, t.2.1, t.2.2.2.1, isoDate t.2.2.2.2⟩] }) ∧
    (tupleKey t ∉ st.seenKeys →
      ∃ sale : ParsedSale, saleKey sale = tupleKey t ∧
        processRow cm i row st = { st with
          sales := st.sales ++ [sale],
          seenKeys := st.seenKeys ++ [tupleKey t] }) := by
  simp only [rowTuple] at ht
  simp only [processRow]
  by_cases h1 : jsToUpper (jsTrim (cellStrOr "" (getCell cm row "dineroRecibido"))) ≠ "PAGADO"
  · rw [if_pos h1] at ht
    cases ht
  · rw [if_neg h1] at ht
    rw [if_neg h1]
    by_cases h2 : jsTrim (cellStrOr "" (getCell cm row "vendedor")) = ""
    · rw [if_pos h2] at ht
      cases ht
    · rw [if_neg h2] at ht
      rw [if_neg h2]
      rcases hf : parseDate (getCell cm row "fecha") with _ | fecha
      · rw [hf] at ht
        cases ht
      · rw [hf] at ht
        simp only [Option.some.injEq] at ht
        subst ht
        simp only [tupleKey]
        constructor
        · intro hseen
          rw [if_pos (by simpa using hseen)]
        · intro hnew
          rw [if_neg (by simpa using hnew)]
          refine ⟨⟨fecha,
            jsTrim (cellStrOr "" (getCell cm row "nombre")),
            jsTrim (cellStrOr "" (getCell cm row "vendedor")),
            jsTrim (cellStrOr "" (getCell cm row "zona")),
            jsTrim (cellStrOr "" (getCell cm row "plan")),
            jsTrim (cellStrOr "" (getCell cm row "medioPago")),
            (if jsTrim (cellStrOr "" (getCell cm row "referenciaRegistro")) = "" then none
             else some (jsTrim (cellStrOr "" (getCell cm row "referenciaRegistro")))),
            (if jsToUpper (jsTrim (cellStrOr "" (getCell cm row "gratis"))) = "GRATIS"
             then InstallationType.FREE else InstallationType.PAID),
            detectCurrency (jsTrim (cellStrOr "" (getCell cm row "medioPago"))),
            parseAmount (getCell cm row "montoSuscripcion")⟩, rfl, rfl⟩

theorem processRow_seen_inv (cm : ColMap) (i : Nat) (row : Row) (st : LoopState)
    (h : st.seenKeys = st.sales.map saleKey) :
    (processRow cm i row st).seenKeys = (processRow cm i row st).sales.map saleKey := by
  rcases ht : rowTuple cm row with _ | t
  · rw [(processRow_of_skip cm i row st ht).1, (processRow_of_skip cm i row st ht).2]
    exact h
  · by_cases hmem : tupleKey t ∈ st.seenKeys
    · rw [(processRow_of_tuple cm i row st t ht).1 hmem]
      exact h
    · obtain ⟨sale, hkey, heq⟩ := (processRow_of_tuple cm i row st t ht).2 hmem
      rw [heq]
      simp [h, hkey]

theorem processRow_nodup_inv (cm : ColMap) (i : Nat) (row : Row) (st : LoopState)
    (hseen : st.seenKeys = st.sales.map saleKey)
    (h : (st.sales.map saleKey).Nodup) :
    ((processRow cm i row st).sales.map saleKey).Nodup := by
  rcases ht : rowTuple cm row with _ | t
  · rw [(processRow_of_skip cm i row st ht).1]
    exact h
  · by_cases hmem : tupleKey t ∈ st.seenKeys
    · rw [(processRow_of_tuple cm i row st t ht).1 hmem]
      exact h
    · obtain ⟨sale, hkey, heq⟩ := (processRow_of_tuple cm i row st t ht).2 hmem
      rw [heq]
      simp only [List.map_append, List.map_cons, List.map_nil, hkey]
      refine List.Nodup.append h (List.nodup_singleton _) ?_
      intro a ha hb
      simp only [List.mem_singleton] at hb
      subst hb
      apply hmem
      rw [hseen]
      exact ha

theorem processFrom_seen_inv (cm : ColMap) (l : List Row) (i : Nat) (st : LoopState)
    (h : st.seenKeys = st.sales.map saleKey) :
    (processFrom cm i l st).seenKeys = (processFrom cm i l st).sales.map saleKey := by
  induction l generalizing i st with
  | nil => simpa [processFrom] using h
  | cons row rest ih =>
    simp only [processFrom]
    exact ih (i + 1) _ (processRow_seen_inv cm i row st h)

theorem processFrom_nodup_inv (cm : ColMap) (l : List Row) (i : Nat) (st : LoopState)
    (hseen : st.seenKeys = st.sales.map saleKey)
    (h : (st.sales.map saleKey).Nodup) :
    ((processFrom cm i l st).sales.map saleKey).Nodup := by
  induction l generalizing i st with
  | nil => simpa [processFrom] using h
  | cons row rest ih =>
    simp only [processFrom]
    exact ih (i + 1) _ (processRow_seen_inv cm i row st hseen)
      (processRow_nodup_inv cm i row st hseen h)

/-- C4 (amended): within one run no two accepted transactions share the dedup
key, and a later data row that itself passes the validity checks and whose
(customer, plan, seller, zone, day) 5-tuple matches an earlier accepted
row's is classified as a duplicate — counted, recorded, and kept out of the
output — regardless of its other fields.  (Unamended the claim fails: a
tuple-matching row that fails a validity check, e.g. an empty
payment-confirmed cell, is skipped rather than counted as duplicate — see
the counterexample.) -/
theorem parseExcelFile_dedup_amended :
    (∀ rows : List Row, ((parseExcelFile rows).sales.map saleKey).Nodup) ∧
    (∀ (rows : List Row) (j : Nat) (t : String × String × String × String × SDate),
      j < (rows.drop 1).length →
      rowTuple (finalColMapOf rows) ((rows.drop 1).getD j []) = some t →
      (∃ s ∈ (stAfter rows j).sales, saleKey s = tupleKey t) →
      (stAfter rows (j + 1)).sales = (stAfter rows j).sales ∧
      (stAfter rows (j + 1)).duplicateRows = (stAfter rows j).duplicateRows + 1 ∧
      (stAfter rows (j + 1)).duplicates = (stAfter rows j).duplicates ++
        [⟨j + 2, t.1, t.2.2.1, t.2.1, t.2.2.2.1, isoDate t.2.2.2.2⟩]) := by
  constructor
  · intro rows
    by_cases hlen : rows.length < 2
    · simp [parseExcelFile, hlen]
    · simp only [parseExcelFile, if_neg hlen]
      exact processFrom_nodup_inv _ _ 0 initState (by simp [initState]) (by simp [initState])
  · intro rows j t hj ht hex
    have hseen : (stAfter rows j).seenKeys = (stAfter rows j).sales.map saleKey :=
      processFrom_seen_inv _ _ 0 initState (by simp [initState])
    have hmem : tupleKey t ∈ (stAfter rows j).seenKeys := by
      rw [hseen]
      obtain ⟨s, hs, hk⟩ := hex
      exact List.mem_map.mpr ⟨s, hs, hk⟩
    have hstep := (processRow_of_tuple (finalColMapOf rows) j ((rows.drop 1).getD j [])
      (stAfter rows j) t ht).1 hmem
    rw [stAfter_succ rows j hj, hstep]
    exact ⟨rfl, rfl, rfl⟩

/-- Witness for `parseExcelFile_dedup_amended`: in a workbook whose third row
repeats the accepted second row's 5-tuple (with a different amount and
reference), processing row index 1 increments the duplicate counter. -/
theorem parseExcelFile_dedup_amended_witness :
    (1 < (([wbHeader, wbRowOk, wbRowDup] : List Row).drop 1).length) ∧
    (rowTuple (finalColMapOf [wbHeader, wbRowOk, wbRowDup])
        ((([wbHeader, wbRowOk, wbRowDup] : List Row).drop 1).getD 1 []) =
      some ("Cliente Uno", "Plan A", "Ana", "Norte", ⟨2024, 3, 15⟩)) ∧
    (∃ s ∈ (stAfter [wbHeader, wbRowOk, wbRowDup] 1).sales,
      saleKey s = tupleKey ("Cliente Uno", "Plan A", "Ana", "Norte", ⟨2024, 3, 15⟩)) ∧
    (stAfter [wbHeader, wbRowOk, wbRowDup] 2).duplicateRows =
      (stAfter [wbHeader, wbRowOk, wbRowDup] 1).duplicateRows + 1 :=
  ⟨by decide, by decide, by decide,
   (parseExcelFile_dedup_amended.2 [wbHeader, wbRowOk, wbRowDup] 1
      ("Cliente Uno", "Plan A", "Ana", "Norte", ⟨2024, 3, 15⟩)
      (by decide) (by decide) (by decide)).2.1⟩

/-- C4 counterexample: a later row with the same (customer, plan, seller,
zone, day) 5-tuple as an earlier accepted row but an empty payment-confirmed
cell is skipped, not counted as a duplicate — refuting the unrestricted
"regardless of differences in any other field" reading. -/
theorem parseExcelFile_dedup_counterexample :
    rawRowTuple (finalColMapOf [wbHeader, wbRowOk, wbRowSameTupleUnpaid]) wbRowSameTupleUnpaid =
      rawRowTuple (finalColMapOf [wbHeader, wbRowOk, wbRowSameTupleUnpaid]) wbRowOk ∧
    (rawRowTuple (finalColMapOf [wbHeader, wbRowOk, wbRowSameTupleUnpaid]) wbRowOk).isSome = true ∧
    (∃ s ∈ (parseExcelFile [wbHeader, wbRowOk, wbRowSameTupleUnpaid]).sales,
      some (saleKey s) =
        (rawRowTuple (finalColMapOf [wbHeader, wbRowOk, wbRowSameTupleUnpaid]) wbRowOk).map
          tupleKey) ∧
    (parseExcelFile [wbHeader, wbRowOk, wbRowSameTupleUnpaid]).duplicateRows = 0 ∧
    (parseExcelFile [wbHeader, wbRowOk, wbRowSameTupleUnpaid]).duplicates = [] ∧
    (parseExcelFile [wbHeader, wbRowOk, wbRowSameTupleUnpaid]).skippedRows = 1 := by decide

end Wellcome
